import Mathlib

/-!
Verification of the syncrclone agent driver (`syncrclone/rclone.py`).

Shallow embedding: each relevant method of the `Rclone` class is translated
into an executable Lean definition over explicit inputs (configuration
fields, the outcome of the external agent process, file listings).  Agent
invocations are modelled by the command lines and file lists the code would
hand to the agent; raised Python exceptions are modelled by explicit result
constructors.
-/

namespace Syncrclone

/-! ## Shared configuration vocabulary -/

/-- The `compare` configuration option: `size`, `mtime` or `hash`. -/
inductive CompareMode
  | size
  | mtime
  | hash
deriving DecidableEq

/-- The per-side `renamesA`/`renamesB` option: `size`, `mtime`, `hash` or `None`. -/
inductive RenameMode
  | size
  | mtime
  | hash
  | noDetect
deriving DecidableEq

/-- The `conflict_mode` option after validation (`_tag` variants already stripped). -/
inductive ConflictMode
  | sideA
  | sideB
  | newer
  | older
  | larger
  | smaller
  | tag
  | null
deriving DecidableEq

/-- Outcome of one `Rclone.call` invocation: the wrapped subprocess either
exits 0 (`ok`) or `call` raises `subprocess.CalledProcessError` carrying the
nonzero return code (`fail`). -/
inductive CallOutcome
  | ok
  | fail (code : Nat)
deriving DecidableEq

/-! ## File entries (rclone.py `file_list`, §3 of the spec)

An entry of a listing: `Path`, `Size`, `mtime` (possibly absent), and the
`Hashes` map.  `hashes = none` models a dict without the `"Hashes"` key;
`hashes = some m` models the key being present with map `m` (possibly empty).
`mtime` is modelled over `Int`: only equality and Python truthiness of the
value matter for the claims below. -/
structure FileEntry where
  path : String
  size : Int
  mtime : Option Int
  hashes : Option (List (String × String))
deriving DecidableEq

/-- Python truthiness of `prev.get("mtime", None)`: `None` and `0` are falsy. -/
def mtimeTruthy : Option Int → Bool
  | none => false
  | some t => t != 0

/-! ## `Rclone.transfer` (rclone.py lines 621-697; claims C2 and C10) -/

/-- The two direction modes accepted by `Rclone.transfer`. -/
inductive SyncMode
  | A2B
  | B2A
deriving DecidableEq

/-- String form of a mode, as interpolated into the temp-file names. -/
def SyncMode.str : SyncMode → String
  | .A2B => "A2B"
  | .B2A => "B2A"

/-- The configuration fields read by `Rclone.transfer`.  `rcloneFlags` is
`config.rclone_flags + self.add_args` (the per-side flags are deliberately
not used by the source). -/
structure TransferConfig where
  remoteA : String
  remoteB : String
  compare : CompareMode
  rcloneFlags : List String
  tmpdir : String
deriving DecidableEq

/-- One agent invocation made by `transfer`: the assembled command line and
the file list written to the `--files-from` temp file. -/
structure TransferCall where
  cmd : List String
  filesFrom : List String
deriving DecidableEq

/-- Observable behaviour of one `Rclone.transfer` call: the agent
invocations made (in order), the temp files written (name and lines), and
whether the `ValueError("This should NOT HAPPEN")` branch was reached. -/
structure TransferResult where
  calls : List TransferCall
  tempFiles : List (String × List String)
  valueErrorRaised : Bool
deriving DecidableEq

/-- The transfer source: `remoteA` for `A2B`, `remoteB` for `B2A`. -/
def transfer_src (cfg : TransferConfig) : SyncMode → String
  | .A2B => cfg.remoteA
  | .B2A => cfg.remoteB

/-- The transfer destination: `remoteB` for `A2B`, `remoteA` for `B2A`. -/
def transfer_dst (cfg : TransferConfig) : SyncMode → String
  | .A2B => cfg.remoteB
  | .B2A => cfg.remoteA

/-- Embedding of `Rclone.transfer`.  Mirrors the source control flow:
early return when both lists are empty; base `copy` command; `diff_size`
handled first with `--size-only` (plus `--no-traverse` when the list has at
most 100 entries); then `matched_size` with `--checksum` exactly for
`compare == "hash"`, raising `ValueError` for `compare == "size"` (before
writing its temp file), and the same `--no-traverse` rule. -/
def transfer (cfg : TransferConfig) (mode : SyncMode) (matched_size diff_size : List String) :
    TransferResult :=
  let src := transfer_src cfg mode
  let dst := transfer_dst cfg mode
  if matched_size.isEmpty && diff_size.isEmpty then
    TransferResult.mk [] [] false
  else
    let cmd := ["copy", "-v", "--stats-one-line", "--log-format", ""] ++ cfg.rcloneFlags
    let diffPart :=
      if diff_size.isEmpty then TransferResult.mk [] [] false
      else
        let cmddiff := cmd ++ ["--size-only"]
        let cmddiff := if diff_size.length ≤ 100 then cmddiff ++ ["--no-traverse"] else cmddiff
        let tmpfile := cfg.tmpdir ++ mode.str ++ "_transfer-diff_size"
        let cmddiff := cmddiff ++ ["--files-from", tmpfile, src, dst]
        TransferResult.mk [TransferCall.mk cmddiff diff_size] [(tmpfile, diff_size)] false
    if matched_size.isEmpty then diffPart
    else if cfg.compare = CompareMode.size then
      TransferResult.mk diffPart.calls diffPart.tempFiles true
    else
      let cmdmatch := cmd ++ (if cfg.compare = CompareMode.hash then ["--checksum"] else [])
      let cmdmatch := if matched_size.length ≤ 100 then cmdmatch ++ ["--no-traverse"] else cmdmatch
      let tmpfile := cfg.tmpdir ++ mode.str ++ "_transfer-matched_size"
      let cmdmatch := cmdmatch ++ ["--files-from", tmpfile, src, dst]
      TransferResult.mk (diffPart.calls ++ [TransferCall.mk cmdmatch matched_size])
        (diffPart.tempFiles ++ [(tmpfile, matched_size)]) false

/-! ## `Rclone.pull_prev_list` (rclone.py lines 229-259; claim C3) -/

/-- Outcome of reading back the pulled state file
(`lzma.open(dst)` / `json.load`): present and well formed, absent
(`FileNotFoundError`), or present but undecodable (any other exception). -/
inductive LoadOutcome
  | found (listing : List FileEntry)
  | missing
  | corrupt
deriving DecidableEq

/-- The log lines `pull_prev_list` can emit. -/
inductive PullLog
  | noPrevNotice
  | unexpectedReturnWarning
  | missingStateWarning
deriving DecidableEq

/-- Result of `pull_prev_list`: either a returned listing together with the
log lines emitted, or a propagated exception from deserialization. -/
inductive PullResult
  | ret (listing : List FileEntry) (logs : List PullLog)
  | raised
deriving DecidableEq

/-- Embedding of `Rclone.pull_prev_list`: the `copyto` pull is attempted;
a `CalledProcessError` with code 3 or 4 yields `[]` with a notice, any
other raised code yields `[]` with a warning (the source does not re-raise);
on success the state file is loaded, `FileNotFoundError` yields `[]` with a
warning, and other load failures propagate. -/
def pull_prev_list (callRes : CallOutcome) (load : LoadOutcome) : PullResult :=
  match callRes with
  | .fail code =>
    if code = 3 ∨ code = 4 then PullResult.ret [] [PullLog.noPrevNotice]
    else PullResult.ret [] [PullLog.unexpectedReturnWarning]
  | .ok =>
    match load with
    | .found l => PullResult.ret l []
    | .missing => PullResult.ret [] [PullLog.missingStateWarning]
    | .corrupt => PullResult.raised

/-! ## `Rclone.check_lock` (rclone.py lines 761-788; claim C4) -/

/-- Result of `check_lock` on one side: `raise LockedRemoteError`, normal
return, or the re-raised `CalledProcessError` with its code. -/
inductive CheckLockResult
  | lockedError
  | normalReturn
  | reraised (code : Nat)
deriving DecidableEq

/-- Modelled from the spec: `utils.pathjoin` (utils.py is not in src).
Per §6.1 the lock sentinel lives at `workdir[S]/LOCK/LOCK_<job-name>`, so
joining is modelled as `/`-separated concatenation. -/
def pathjoin (a b : String) : String := a ++ "/" ++ b

/-- The `lsf` target computed by `check_lock`:
`utils.pathjoin(workdir, f"LOCK/LOCK_{config.name}")`. -/
def lock_dest (workdir name : String) : String := pathjoin workdir ("LOCK/LOCK_" ++ name)

/-- The command `check_lock` issues (flags are the concatenated
`config.rclone_flags + self.add_args + rclone_flags{AB}`). -/
def check_lock_cmd (flags : List String) (workdir name : String) : List String :=
  flags ++ ["--retries", "1", "lsf", lock_dest workdir name]

/-- Embedding of the exception handling of `Rclone.check_lock`: a successful
`lsf` means the sentinel exists and `LockedRemoteError` is raised; codes 3
and 4 mean no lock and the function returns; any other raised code is
re-raised. -/
def check_lock (callRes : CallOutcome) : CheckLockResult :=
  match callRes with
  | .fail code =>
    if code = 3 ∨ code = 4 then CheckLockResult.normalReturn
    else CheckLockResult.reraised code
  | .ok => CheckLockResult.lockedError

/-! ## `Rclone.file_list` command assembly (rclone.py lines 278-322; claim C6) -/

/-- The configuration fields consulted when building the `lsjson` command
for side S.  `userFlags` is the concatenation
`config.rclone_flags + self.add_args + rclone_flags{AB} + config.filter_flags`. -/
structure FileListConfig where
  compare : CompareMode
  renames : RenameMode
  reuseHashes : Bool
  alwaysGetMtime : Bool
  conflictMode : ConflictMode
  userFlags : List String
  remote : String
deriving DecidableEq

/-- `compute_hashes = "hash" in [config.compare, config.renames{AB}]`. -/
def compute_hashes (cfg : FileListConfig) : Bool :=
  cfg.compare = CompareMode.hash || cfg.renames = RenameMode.hash

/-- `reuse = compute_hashes and config.reuse_hashes{AB}`. -/
def reuse_hashes (cfg : FileListConfig) : Bool :=
  compute_hashes cfg && cfg.reuseHashes

/-- The condition of rclone.py lines 299-303 under which `--no-modtime`
is appended. -/
def no_modtime_condition (cfg : FileListConfig) : Bool :=
  !cfg.alwaysGetMtime &&
    !(cfg.compare = CompareMode.mtime || cfg.renames = RenameMode.mtime ||
      (cfg.conflictMode = ConflictMode.newer || cfg.conflictMode = ConflictMode.older))

/-- Embedding of the `lsjson` command assembly in `Rclone.file_list`. -/
def file_list_cmd (cfg : FileListConfig) : List String :=
  let cmd := ["lsjson", "--filter", "+ /.syncrclone/LOCK/*", "--filter", "- /.syncrclone/**"]
  let cmd := if compute_hashes cfg && !reuse_hashes cfg then cmd ++ ["--hash"] else cmd
  let cmd := if no_modtime_condition cfg then cmd ++ ["--no-modtime"] else cmd
  cmd ++ cfg.userFlags ++ ["-R", "--no-mimetype", "--files-only"] ++ [cfg.remote]

/-! ## `Rclone.version_check` (rclone.py lines 74-93; claim C7)

Text is modelled as `List Char` so that all parsing functions reduce in the
kernel.  `re.search(r"^rclone v?(.*)$", res, flags=re.MULTILINE)` is the
first line of the output starting with `"rclone "`, with one optional `v`
stripped; `tuple(map(int, ver.split(".")))` is the dot-split of that
capture with every component parsed as a decimal number. -/

/-- Split a character list on a separator character (model of `str.split`
on a single-character separator: `n+1` pieces for `n` separators). -/
def splitOnChar (sep : Char) : List Char → List (List Char)
  | [] => [[]]
  | c :: rest =>
    match splitOnChar sep rest with
    | [] => if c = sep then [[], []] else [[c]]
    | piece :: pieces => if c = sep then [] :: piece :: pieces else (c :: piece) :: pieces

/-- Parse a nonempty all-digit component as a decimal number (model of
Python `int` on the version components). -/
def decimalNat? (cs : List Char) : Option Nat :=
  if cs.isEmpty then none
  else cs.foldl (fun acc c =>
    match acc with
    | none => none
    | some n => if c.isDigit then some (n * 10 + (c.toNat - 48)) else none) (some 0)

/-- The capture of `^rclone v?(.*)$` over the multiline output: the first
line starting with `"rclone "`, with the prefix and one optional `v`
removed; `none` models `re.search` returning no match. -/
def findVersionCapture (out : List Char) : Option (List Char) :=
  ((splitOnChar '\n' out).find? (fun l => ("rclone ".toList).isPrefixOf l)).map
    (fun l =>
      let rest := l.drop 7
      match rest with
      | 'v' :: tail => tail
      | _ => rest)

/-- `tuple(map(int, s.split(".")))`: all dot-separated components parsed
as decimal numbers, `none` when any component fails to parse. -/
def parseVersionTuple (s : List Char) : Option (List Nat) :=
  (splitOnChar '.' s).mapM decimalNat?

/-- Python tuple comparison `<` on the parsed version tuples:
lexicographic, a strict prefix is smaller. -/
def tupleLt : List Nat → List Nat → Bool
  | [], bs => !bs.isEmpty
  | a :: as, bs =>
    match bs with
    | [] => false
    | b :: bs' => if a < b then true else if b < a then false else tupleLt as bs'

/-- Outcome of `version_check`: normal return, the raised
`RcloneVersionError`, or the caught parse failure (warning logged, no
abort). -/
inductive VersionCheckResult
  | passed
  | versionError
  | parseWarning
deriving DecidableEq

/-- Embedding of `Rclone.version_check` given the text of the `--version`
call and the `MINRCLONE` constant: a version parsed below the minimum
raises `RcloneVersionError`; any failure to parse (no regex match, or a
non-integer component on either side) is caught and only warns. -/
def version_check (minrclone : List Char) (versionOutput : List Char) : VersionCheckResult :=
  match (findVersionCapture versionOutput).bind parseVersionTuple with
  | none => VersionCheckResult.parseWarning
  | some ver =>
    match parseVersionTuple minrclone with
    | none => VersionCheckResult.parseWarning
    | some minver =>
      if tupleLt ver minver then VersionCheckResult.versionError else VersionCheckResult.passed

/-- Embedding of the construction tail of `Rclone.__init__`: the driver
issues the `--version` call and applies `version_check` to its output. -/
def rclone_init (minrclone : List Char) (versionOutput : List Char) :
    List (List String) × VersionCheckResult :=
  ([["--version"]], version_check minrclone versionOutput)

/-! ## `Rclone.features` and capability predicates (rclone.py lines 843-888; claim C9) -/

/-- A side identifier, `"A"` or `"B"`. -/
inductive Side
  | A
  | B
deriving DecidableEq

/-- The inner `Features` dictionary of the agent's `backend features`
reply, restricted to boolean capabilities. -/
abbrev FeatureMap := List (String × Bool)

/-- `features.get("Copy", False)` (body of `Rclone.copy_support`). -/
def copy_support (fm : FeatureMap) : Bool := (fm.lookup "Copy").getD false

/-- `features.get("Move", False)` (body of `Rclone.move_support`). -/
def move_support (fm : FeatureMap) : Bool := (fm.lookup "Move").getD false

/-- `features.get("CanHaveEmptyDirectories", True)` (body of
`Rclone.empty_dir_support`). -/
def empty_dir_support (fm : FeatureMap) : Bool :=
  (fm.lookup "CanHaveEmptyDirectories").getD true

/-- Modelled from the spec: `utils.memoize` (utils.py is not in src).
§4.2/§5: the feature probe is memoized per side — a per-key cache is
populated on first use and read thereafter.  `featuresMemoRun` processes a
sequence of `features(remote)` queries, threading the cache and counting
the probe (`backend features` agent call) invocations per side. -/
def featuresMemoRun (probe : Side → FeatureMap) :
    List Side → (Side → Option FeatureMap) → (Side → Nat) →
    List FeatureMap × (Side → Option FeatureMap) × (Side → Nat)
  | [], cache, count => ([], cache, count)
  | q :: rest, cache, count =>
    match cache q with
    | some fm =>
      let r := featuresMemoRun probe rest cache count
      (fm :: r.1, r.2)
    | none =>
      let fm := probe q
      let r := featuresMemoRun probe rest
        (fun s => if s = q then some fm else cache s)
        (fun s => if s = q then count s + 1 else count s)
      (fm :: r.1, r.2)

/-- Run a query sequence from the empty cache. -/
def featuresRun (probe : Side → FeatureMap) (queries : List Side) :
    List FeatureMap × (Side → Option FeatureMap) × (Side → Nat) :=
  featuresMemoRun probe queries (fun _ => none) (fun _ => 0)

/-! ## Move dispatch in `Rclone.delete_backup_move` (rclone.py lines 504-576; claim C1)

Paths are modelled at the level of `pathlib.Path(...).parts`: a list of
slash-free components.  `os.path.join(*parts)` is then component-list
concatenation, with the empty string represented by `[]`. -/

/-- Path components. -/
abbrev Parts := List String

/-- `itertools.zip_longest` with fill value `None`, specialised to two
component lists. -/
def zipLongest : List String → List String → List (Option String × Option String)
  | [], bs => bs.map (fun b => (none, some b))
  | a :: as, bs =>
    match bs with
    | [] => (some a, none) :: zipLongest as []
    | b :: bs' => (some a, some b) :: zipLongest as bs'

/-- Index of the first pair whose components differ (the index at which the
source loop executes `break`), or `none` if the loop runs to completion. -/
def firstMismatch : List (Option String × Option String) → Option Nat
  | [] => none
  | p :: rest => if p.1 = p.2 then (firstMismatch rest).map (· + 1) else some 0

/-- `ixdiv` as left by the source loop over
`enumerate(zip_longest(sparts[::-1], dparts[::-1]))`: the break index, or
the final loop index when no pair differs. -/
def ixdivCalc (sparts dparts : Parts) : Nat :=
  let z := zipLongest sparts.reverse dparts.reverse
  match firstMismatch z with
  | some k => k
  | none => z.length - 1

/-- One pending grouped move: the `(srcdir, dstdir)` key, the first file
suffix, and the later file suffixes (so a group is nonempty by
construction, as in the source where values of the defaultdict are built by
appending). -/
structure MoveGroup where
  srcdir : Parts
  dstdir : Parts
  firstFile : Parts
  restFiles : List Parts
deriving DecidableEq

/-- The files of a group, in insertion order (`move[...]` list). -/
def MoveGroup.files (g : MoveGroup) : List Parts := g.firstFile :: g.restFiles

/-- Append a file under a key, preserving the defaultdict's insertion
order: an existing key gets the file appended to its list, a new key is
appended at the end. -/
def addGroup : List MoveGroup → Parts × Parts → Parts → List MoveGroup
  | [], k, f => [MoveGroup.mk k.1 k.2 f []]
  | g :: rest, k, f =>
    if g.srcdir = k.1 ∧ g.dstdir = k.2 then
      MoveGroup.mk g.srcdir g.dstdir g.firstFile (g.restFiles ++ [f]) :: rest
    else g :: addGroup rest k f

/-- State of the classification loop: the `moveto` list and the `move`
defaultdict. -/
abbrev MoveState := List (Parts × Parts) × List MoveGroup

/-- One iteration of the classification loop of `delete_backup_move`:
compute `ixdiv`; `ixdiv == 0` appends to `moveto`; otherwise the stripped
prefix pair keys the group and the suffix of `sparts` is the file. -/
def moveStep (st : MoveState) (p : Parts × Parts) : MoveState :=
  let ix := ixdivCalc p.1 p.2
  if ix = 0 then (st.1 ++ [p], st.2)
  else
    let key := (p.1.take (p.1.length - ix), p.2.take (p.2.length - ix))
    let f := p.1.drop (p.1.length - ix)
    (st.1, addGroup st.2 key f)

/-- The singleton-collapse loop: iterate the groups in insertion order;
a group with exactly one file is turned back into a
`moveto (srcdir/file, dstdir/file)` appended to the `moveto` list and
removed; larger groups are kept in order. -/
def collapseGroups (mt : List (Parts × Parts)) :
    List MoveGroup → List (Parts × Parts) × List MoveGroup
  | [] => (mt, [])
  | g :: rest =>
    match g.restFiles with
    | [] => collapseGroups (mt ++ [(g.srcdir ++ g.firstFile, g.dstdir ++ g.firstFile)]) rest
    | _ :: _ =>
      let r := collapseGroups mt rest
      (r.1, g :: r.2)

/-- One dispatched agent call of the move stage. -/
inductive MoveOp
  | moveto (src dst : Parts)
  | move (srcdir dstdir : Parts) (files : List Parts)
deriving DecidableEq

/-- Embedding of the move stage of `Rclone.delete_backup_move`: classify
every pair, collapse singleton groups, then dispatch all `moveto` calls
(worker pool, in list order) followed by one grouped `move ... --files-from`
call per remaining group. -/
def delete_backup_move_moves (moves : List (Parts × Parts)) : List MoveOp :=
  let st := moves.foldl moveStep ([], [])
  let c := collapseGroups st.1 st.2
  c.1.map (fun p => MoveOp.moveto p.1 p.2) ++
    c.2.map (fun g => MoveOp.move g.srcdir g.dstdir g.files)

/-- The length of the longest common prefix of two lists. -/
def commonPrefixLen : List String → List String → Nat
  | [], _ => 0
  | a :: as, bs =>
    match bs with
    | [] => 0
    | b :: bs' => if a = b then commonPrefixLen as bs' + 1 else 0

/-- The length of the longest common suffix of the component lists, as the
spec words it ("compute the longest common suffix of path components"). -/
def commonSuffixLen (sparts dparts : Parts) : Nat :=
  commonPrefixLen sparts.reverse dparts.reverse

/-- The per-pair classification as the spec states it: zero common suffix
components means a single `moveto src dst`; otherwise the pair is grouped
under the prefix pair obtained by stripping the longest common component
suffix, with that suffix as the file. -/
def specMoveStep (st : MoveState) (p : Parts × Parts) : MoveState :=
  let k := commonSuffixLen p.1 p.2
  if k = 0 then (st.1 ++ [p], st.2)
  else
    let key := (p.1.take (p.1.length - k), p.2.take (p.2.length - k))
    let f := p.1.drop (p.1.length - k)
    (st.1, addGroup st.2 key f)

/-- The move dispatch as the spec states it: classify by longest common
component suffix, collapse groups of exactly one pair back to `moveto`,
dispatch each group of two or more pairs as one
`move src_dir dst_dir --files-from <suffixes>` call. -/
def specDispatchMoves (moves : List (Parts × Parts)) : List MoveOp :=
  let st := moves.foldl specMoveStep ([], [])
  let c := collapseGroups st.1 st.2
  c.1.map (fun p => MoveOp.moveto p.1 p.2) ++
    c.2.map (fun g => MoveOp.move g.srcdir g.dstdir g.files)

/-- The two rename pairs of scenario S5. -/
def movesS5 : List (Parts × Parts) :=
  [(["deep", "sub", "dir", "f1"], ["deeper", "sub", "dir", "f1"]),
   (["deep", "sub", "dir", "f2"], ["deeper", "sub", "dir", "f2"])]

/-! ## Hash reuse in `Rclone.file_list` (rclone.py lines 352-397; claim C5) -/

/-- Modelled from the spec: `DictTable.__getitem__` (dicttable.py is not in
src).  §4.1: `get(query)` returns the unique entry matching all key/value
pairs of the query or none; the query here is
`{"Size": file["Size"], "mtime": file["mtime"], "Path": file["Path"]}`. -/
def dictTableGet (l : List FileEntry) (p : String) (s : Int) (m : Option Int) :
    Option FileEntry :=
  l.find? (fun e => e.path = p ∧ e.size = s ∧ e.mtime = m)

/-- Embedding of the reuse loop (rclone.py lines 356-368): for each entry
of `curr`, look up `prev` by the `(Size, mtime, Path)` triple; unless the
lookup fails, the `"Hashes"` key is absent, or the prev entry's `mtime` is
falsy, copy the `Hashes` value across; otherwise record the path in
`not_hashed`.  Returns the updated listing and `not_hashed` in order. -/
def reuseHashesPass (curr prev : List FileEntry) : List FileEntry × List String :=
  curr.foldl (fun acc f =>
    match dictTableGet prev f.path f.size f.mtime with
    | none => (acc.1 ++ [f], acc.2 ++ [f.path])
    | some pe =>
      if pe.hashes.isSome && mtimeTruthy pe.mtime then
        (acc.1 ++ [FileEntry.mk f.path f.size f.mtime pe.hashes], acc.2)
      else (acc.1 ++ [f], acc.2 ++ [f.path])) ([], [])

/-- Embedding of the merge loop (rclone.py lines 390-393): every fetched
entry carrying a `"Hashes"` key overwrites the `Hashes` of the listing
entry with the same `Path`. -/
def mergeFetchedHashes (files updated : List FileEntry) : List FileEntry :=
  updated.foldl (fun fs u =>
    match u.hashes with
    | none => fs
    | some h =>
      fs.map (fun f =>
        if f.path = u.path then FileEntry.mk f.path f.size f.mtime (some h) else f)) files

/-- Embedding of the reuse-then-fetch tail of `Rclone.file_list` (lines
352-397).  `fetch` models the second `lsjson --hash --files-from` call as a
function of the requested path list; when nothing is missing the source
returns without issuing it.  The returned pair is the final listing and the
`not_hashed` request list (empty exactly when no second call is made). -/
def file_list_hash_update (curr prev : List FileEntry)
    (fetch : List String → List FileEntry) : List FileEntry × List String :=
  let r := reuseHashesPass curr prev
  if r.2.isEmpty then r
  else (mergeFetchedHashes r.1 (fetch r.2), r.2)

/-- A `Hashes` field that is present and nonempty. -/
def hashesNonempty (e : FileEntry) : Bool :=
  match e.hashes with
  | some (_ :: _) => true
  | _ => false

/-- The reuse pass as claim C5 words it: copy the `Hashes` map onto each
entry of `curr` from a `prev` entry with equal `(Path, Size, mtime)` and a
nonempty `Hashes` field; the remaining paths form the un-hashed list. -/
def claimReusePass (curr prev : List FileEntry) : List FileEntry × List String :=
  curr.foldl (fun acc f =>
    match prev.find? (fun pe =>
        (pe.path = f.path ∧ pe.size = f.size ∧ pe.mtime = f.mtime) ∧ hashesNonempty pe) with
    | some pe => (acc.1 ++ [FileEntry.mk f.path f.size f.mtime pe.hashes], acc.2)
    | none => (acc.1 ++ [f], acc.2 ++ [f.path])) ([], [])

/-- The reuse pass as amended: copy the `Hashes` map onto each entry of
`curr` from a `prev` entry with equal `(Path, Size, mtime)` whose `Hashes`
field is present (possibly empty) and whose `mtime` is present and nonzero. -/
def amendedReusePass (curr prev : List FileEntry) : List FileEntry × List String :=
  curr.foldl (fun acc f =>
    match prev.find? (fun pe =>
        (pe.path = f.path ∧ pe.size = f.size ∧ pe.mtime = f.mtime) ∧
          (pe.hashes.isSome ∧ mtimeTruthy pe.mtime)) with
    | some pe => (acc.1 ++ [FileEntry.mk f.path f.size f.mtime pe.hashes], acc.2)
    | none => (acc.1 ++ [f], acc.2 ++ [f.path])) ([], [])

/-- The returned `Hashes` maps merged into the listing by `Path`, written
as a per-update conditional rewrite of the listing. -/
def amendedMergeHashes (files updated : List FileEntry) : List FileEntry :=
  updated.foldl (fun fs u =>
    if u.hashes.isSome then
      fs.map (fun f =>
        if f.path = u.path then FileEntry.mk f.path f.size f.mtime u.hashes else f)
    else fs) files

/-- The amended acquisition pass: amended reuse, then one fetch restricted
to exactly the un-hashed paths (skipped when none remain), merged by
`Path`. -/
def amendedHashUpdate (curr prev : List FileEntry)
    (fetch : List String → List FileEntry) : List FileEntry × List String :=
  let r := amendedReusePass curr prev
  if r.2.isEmpty then r
  else (amendedMergeHashes r.1 (fetch r.2), r.2)

/-! ## `Rclone.rmdirs` (rclone.py lines 790-841; claim C8)

Directory paths are modelled as `List Char` so that Python's
lexicographic string order (`sorted(dirlist)`) and `str.startswith` reduce
in the kernel.  The order on `List Char` is the lexicographic order, which
agrees with Python's code-point comparison of strings. -/

/-- A directory path as a character list. -/
abbrev DirPath := List Char

/-- `diritem.startswith(f"{rmdir}/")`: `rmdir` followed by a slash is a
prefix of `diritem`, i.e. `rmdir` is a proper path ancestor of `diritem`. -/
def dirStartsWith (diritem rmdir : DirPath) : Bool :=
  (rmdir ++ ['/']).isPrefixOf diritem

/-- The root-selection loop of `Rclone.rmdirs`: walk the sorted list and
keep each directory none of whose already-kept directories is a proper
ancestor. -/
def rmdirRootsGo (acc : List DirPath) : List DirPath → List DirPath
  | [] => acc
  | d :: rest =>
    if acc.any (fun r => dirStartsWith d r) then rmdirRootsGo acc rest
    else rmdirRootsGo (acc ++ [d]) rest

/-- Embedding of the root computation of `Rclone.rmdirs`: sort the
directory list (Python `sorted`), then keep ancestor-free roots; one
`rmdirs` agent invocation is issued per kept root. -/
def rmdirs_roots (dirlist : List DirPath) : List DirPath :=
  rmdirRootsGo [] (dirlist.insertionSort (· ≤ ·))

/-- `a` is a proper ancestor directory of `d`: `a ++ "/"` is a prefix of
`d`. -/
def properAncestor (a d : DirPath) : Prop := (a ++ ['/']) <+: d

instance (a d : DirPath) : Decidable (properAncestor a d) := by
  unfold properAncestor
  infer_instance

/-! ## Theorems -/

/-- C10: for every direction mode, calling transfer with both the
matched_size and diff_size lists empty returns immediately without
invoking the agent: no agent call is made and no files-from temp file is
written. -/
theorem claim_C10_transfer_empty_noop (cfg : TransferConfig) (mode : SyncMode) :
    transfer cfg mode [] [] = TransferResult.mk [] [] false := rfl

/-- C2: for every transfer invocation with direction mode A2B or B2A, a
non-empty diff_size list is sent in one `copy --size-only --files-from`
call; a non-empty matched_size list is sent in one `copy --files-from`
call that carries `--checksum` exactly when compare is hash (the
matched_size branch with compare size being impossible by construction);
`--no-traverse` is appended to either call exactly when the corresponding
list has at most 100 entries; and no error is raised. -/
theorem claim_C2_transfer_dispatch (cfg : TransferConfig) (mode : SyncMode)
    (matched_size diff_size : List String)
    (h : cfg.compare = CompareMode.size → matched_size = []) :
    transfer cfg mode matched_size diff_size =
      TransferResult.mk
        ((if diff_size = [] then [] else
            [TransferCall.mk
              (["copy", "-v", "--stats-one-line", "--log-format", ""] ++ cfg.rcloneFlags
                ++ ["--size-only"]
                ++ (if diff_size.length ≤ 100 then ["--no-traverse"] else [])
                ++ ["--files-from", cfg.tmpdir ++ mode.str ++ "_transfer-diff_size",
                    transfer_src cfg mode, transfer_dst cfg mode])
              diff_size])
          ++ (if matched_size = [] then [] else
            [TransferCall.mk
              (["copy", "-v", "--stats-one-line", "--log-format", ""] ++ cfg.rcloneFlags
                ++ (if cfg.compare = CompareMode.hash then ["--checksum"] else [])
                ++ (if matched_size.length ≤ 100 then ["--no-traverse"] else [])
                ++ ["--files-from", cfg.tmpdir ++ mode.str ++ "_transfer-matched_size",
                    transfer_src cfg mode, transfer_dst cfg mode])
              matched_size]))
        ((if diff_size = [] then [] else
            [(cfg.tmpdir ++ mode.str ++ "_transfer-diff_size", diff_size)])
          ++ (if matched_size = [] then [] else
            [(cfg.tmpdir ++ mode.str ++ "_transfer-matched_size", matched_size)]))
        false := by
  cases diff_size with
  | nil =>
    cases matched_size with
    | nil => rfl
    | cons m ms =>
      have hc : cfg.compare ≠ CompareMode.size := fun hcc => List.cons_ne_nil m ms (h hcc)
      simp only [transfer, List.isEmpty_cons, List.isEmpty_nil, Bool.and_false,
        Bool.false_and, Bool.false_eq_true, if_false, if_neg hc,
        if_pos (rfl : ([] : List String) = []), if_neg (List.cons_ne_nil m ms)]
      split_ifs <;> simp [List.append_assoc]
  | cons a as =>
    cases matched_size with
    | nil =>
      simp only [transfer, List.isEmpty_cons, List.isEmpty_nil, Bool.and_false,
        Bool.false_and, Bool.false_eq_true, if_false,
        if_pos (rfl : ([] : List String) = []), if_neg (List.cons_ne_nil a as)]
      split_ifs <;> simp [List.append_assoc]
    | cons m ms =>
      have hc : cfg.compare ≠ CompareMode.size := fun hcc => List.cons_ne_nil m ms (h hcc)
      simp only [transfer, List.isEmpty_cons, Bool.false_and, Bool.false_eq_true,
        if_false, if_neg hc, if_neg (List.cons_ne_nil a as), if_neg (List.cons_ne_nil m ms)]
      split_ifs <;> simp [List.append_assoc]

/-- Concrete instantiation of C2: a hash-compare transfer of one matched
and one differing path in mode A2B. -/
theorem claim_C2_witness :
    ((TransferConfig.mk "A:" "B:" CompareMode.hash ["-f"] "/tmp/").compare
        = CompareMode.size → (["m"] : List String) = [])
    ∧ transfer (TransferConfig.mk "A:" "B:" CompareMode.hash ["-f"] "/tmp/")
        SyncMode.A2B ["m"] ["d"] =
      TransferResult.mk
        [TransferCall.mk
            ["copy", "-v", "--stats-one-line", "--log-format", "", "-f", "--size-only",
              "--no-traverse", "--files-from", "/tmp/A2B_transfer-diff_size", "A:", "B:"]
            ["d"],
          TransferCall.mk
            ["copy", "-v", "--stats-one-line", "--log-format", "", "-f", "--checksum",
              "--no-traverse", "--files-from", "/tmp/A2B_transfer-matched_size", "A:", "B:"]
            ["m"]]
        [("/tmp/A2B_transfer-diff_size", ["d"]),
          ("/tmp/A2B_transfer-matched_size", ["m"])]
        false :=
  ⟨by decide,
    (claim_C2_transfer_dispatch (TransferConfig.mk "A:" "B:" CompareMode.hash ["-f"] "/tmp/")
      SyncMode.A2B ["m"] ["d"] (by decide)).trans (by decide)⟩

/-- C3 counterexample: at exit code 5 (neither 3 nor 4 and nonzero) the
state pull does not abort with the agent-call error; it returns an empty
prev listing with a logged warning. -/
theorem claim_C3_counterexample :
    pull_prev_list (CallOutcome.fail 5) (LoadOutcome.found [FileEntry.mk "x" 1 (some 1) none])
        = PullResult.ret [] [PullLog.unexpectedReturnWarning]
    ∧ pull_prev_list (CallOutcome.fail 5) (LoadOutcome.found [FileEntry.mk "x" 1 (some 1) none])
        ≠ PullResult.raised := by
  exact ⟨rfl, by decide⟩

/-- C3 (amended): a copyto exit of code 3 or 4 yields an empty prev listing
and a logged notice; any other nonzero exit code also yields an empty prev
listing, with a logged warning, rather than aborting; on success a missing
state file yields an empty listing with a warning, a loadable file is
returned, and an undecodable file propagates the exception. -/
theorem claim_C3_pull_prev_list (callRes : CallOutcome) (load : LoadOutcome) :
    (∀ code, callRes = CallOutcome.fail code → (code = 3 ∨ code = 4) →
        pull_prev_list callRes load = PullResult.ret [] [PullLog.noPrevNotice])
    ∧ (∀ code, callRes = CallOutcome.fail code → code ≠ 0 → ¬(code = 3 ∨ code = 4) →
        pull_prev_list callRes load = PullResult.ret [] [PullLog.unexpectedReturnWarning])
    ∧ (∀ l, callRes = CallOutcome.ok → load = LoadOutcome.found l →
        pull_prev_list callRes load = PullResult.ret l [])
    ∧ (callRes = CallOutcome.ok → load = LoadOutcome.missing →
        pull_prev_list callRes load = PullResult.ret [] [PullLog.missingStateWarning])
    ∧ (callRes = CallOutcome.ok → load = LoadOutcome.corrupt →
        pull_prev_list callRes load = PullResult.raised) := by
  refine ⟨?_, ?_, ?_, ?_, ?_⟩
  · rintro code rfl h34
    simp [pull_prev_list, if_pos h34]
  · rintro code rfl _ h34
    simp [pull_prev_list, if_neg h34]
  · rintro l rfl rfl
    rfl
  · rintro rfl rfl
    rfl
  · rintro rfl rfl
    rfl

/-- Concrete instantiation of C3 (amended): exit code 7 resets state with a
warning; exit code 3 resets state with the no-previous-list notice. -/
theorem claim_C3_witness :
    ((7 : Nat) ≠ 0 ∧ ¬((7 : Nat) = 3 ∨ (7 : Nat) = 4))
    ∧ pull_prev_list (CallOutcome.fail 7) LoadOutcome.missing
        = PullResult.ret [] [PullLog.unexpectedReturnWarning]
    ∧ pull_prev_list (CallOutcome.fail 3) LoadOutcome.missing
        = PullResult.ret [] [PullLog.noPrevNotice] :=
  ⟨by decide,
    (claim_C3_pull_prev_list (CallOutcome.fail 7) LoadOutcome.missing).2.1 7 rfl
      (by decide) (by decide),
    (claim_C3_pull_prev_list (CallOutcome.fail 3) LoadOutcome.missing).1 3 rfl
      (by decide)⟩

/-- C4: the lock check raises LockedRemoteError exactly when the lsf of
`workdir/LOCK/LOCK_<job-name>` succeeds; it returns normally exactly when
that call exits with code 3 or 4; any other raised code is re-raised. -/
theorem claim_C4_check_lock (callRes : CallOutcome) :
    (check_lock callRes = CheckLockResult.lockedError ↔ callRes = CallOutcome.ok)
    ∧ (check_lock callRes = CheckLockResult.normalReturn ↔
        (callRes = CallOutcome.fail 3 ∨ callRes = CallOutcome.fail 4))
    ∧ (∀ code, code ≠ 3 → code ≠ 4 →
        check_lock (CallOutcome.fail code) = CheckLockResult.reraised code)
    ∧ (∀ flags workdir name, (check_lock_cmd flags workdir name).getLast? =
        some (workdir ++ "/LOCK/LOCK_" ++ name)) := by
  refine ⟨?_, ?_, ?_, ?_⟩
  · cases callRes with
    | ok => simp [check_lock]
    | fail code =>
      by_cases h34 : code = 3 ∨ code = 4 <;> simp [check_lock, h34]
  · cases callRes with
    | ok => simp [check_lock]
    | fail code =>
      by_cases h34 : code = 3 ∨ code = 4
      · simp only [check_lock, if_pos h34, true_iff]
        rcases h34 with h | h <;> simp [h]
      · simp only [check_lock, if_neg h34]
        constructor
        · intro hcon
          exact absurd hcon (by simp)
        · rintro (h | h)
          · exact absurd (Or.inl (by simpa using h)) h34
          · exact absurd (Or.inr (by simpa using h)) h34
  · intro code h3 h4
    have hne : ¬(code = 3 ∨ code = 4) := by rintro (h | h) <;> [exact h3 h; exact h4 h]
    simp [check_lock, hne]
  · intro flags workdir name
    have hs : workdir ++ "/" ++ ("LOCK/LOCK_" ++ name) = workdir ++ "/LOCK/LOCK_" ++ name := by
      rcases workdir with ⟨ws⟩
      rcases name with ⟨ns⟩
      show String.mk (ws ++ "/".data ++ ("LOCK/LOCK_".data ++ ns)) =
        String.mk (ws ++ "/LOCK/LOCK_".data ++ ns)
      simp
    simp [check_lock_cmd, lock_dest, pathjoin, List.getLast?_append, hs]

/-- Concrete instantiation of C4: code 7 is re-raised. -/
theorem claim_C4_witness :
    ((7 : Nat) ≠ 3 ∧ (7 : Nat) ≠ 4)
    ∧ check_lock (CallOutcome.fail 7) = CheckLockResult.reraised 7 :=
  ⟨by decide, (claim_C4_check_lock (CallOutcome.fail 7)).2.2.1 7 (by decide) (by decide)⟩

/-- A compare mode other than `mtime` is `size` or `hash`. -/
theorem compareMode_ne_mtime_iff (c : CompareMode) :
    c ≠ CompareMode.mtime ↔ (c = CompareMode.size ∨ c = CompareMode.hash) := by
  cases c <;> simp

/-- The boolean `--no-modtime` condition, characterised over the
configuration domain. -/
theorem no_modtime_condition_iff (cfg : FileListConfig) :
    no_modtime_condition cfg = true ↔
      (cfg.alwaysGetMtime = false
        ∧ (cfg.compare = CompareMode.size ∨ cfg.compare = CompareMode.hash)
        ∧ cfg.renames ≠ RenameMode.mtime
        ∧ cfg.conflictMode ≠ ConflictMode.newer
        ∧ cfg.conflictMode ≠ ConflictMode.older) := by
  rcases cfg with ⟨c, r, ru, a, m, f, re⟩
  cases a <;> cases c <;> cases r <;> cases m <;> simp [no_modtime_condition]

/-- C6: in listing acquisition, `--no-modtime` is passed to lsjson if and
only if always_get_mtime is false, compare is size or hash, renames is not
mtime, and conflict_mode is neither newer nor older. -/
theorem claim_C6_no_modtime (cfg : FileListConfig)
    (h1 : "--no-modtime" ∉ cfg.userFlags) (h2 : cfg.remote ≠ "--no-modtime") :
    "--no-modtime" ∈ file_list_cmd cfg ↔
      (cfg.alwaysGetMtime = false
        ∧ (cfg.compare = CompareMode.size ∨ cfg.compare = CompareMode.hash)
        ∧ cfg.renames ≠ RenameMode.mtime
        ∧ cfg.conflictMode ≠ ConflictMode.newer
        ∧ cfg.conflictMode ≠ ConflictMode.older) := by
  rw [← no_modtime_condition_iff]
  unfold file_list_cmd
  by_cases hnm : no_modtime_condition cfg = true
  · simp [hnm]
  · simp only [file_list_cmd, if_neg hnm]
    split_ifs <;> simp [h1, h2, hnm] <;> exact fun hr => h2 hr.symm

/-- Concrete instantiation of C6: a hash-compare, no-rename-detection,
tag-conflict configuration without mtime requirements gets `--no-modtime`. -/
theorem claim_C6_witness :
    ("--no-modtime" ∉ ([] : List String) ∧ ("r:" : String) ≠ "--no-modtime")
    ∧ "--no-modtime" ∈ file_list_cmd
        (FileListConfig.mk CompareMode.hash RenameMode.noDetect true false ConflictMode.tag [] "r:") :=
  ⟨⟨by decide, by decide⟩,
    (claim_C6_no_modtime
      (FileListConfig.mk CompareMode.hash RenameMode.noDetect true false ConflictMode.tag [] "r:")
      (by decide) (by decide)).mpr (by decide)⟩

/-- C7: on construction, a `--version` call is issued and its output
parsed; a parsed version below the minimum raises the distinct
RcloneVersionError; a version string that cannot be parsed (on either
side) produces a logged warning and construction does not abort. -/
theorem claim_C7_version_gate (minrclone out : List Char) :
    (rclone_init minrclone out).1 = [["--version"]]
    ∧ (∀ ver minver,
        (findVersionCapture out).bind parseVersionTuple = some ver →
        parseVersionTuple minrclone = some minver →
        (rclone_init minrclone out).2 =
          if tupleLt ver minver then VersionCheckResult.versionError
          else VersionCheckResult.passed)
    ∧ ((findVersionCapture out).bind parseVersionTuple = none →
        (rclone_init minrclone out).2 = VersionCheckResult.parseWarning)
    ∧ (parseVersionTuple minrclone = none →
        (rclone_init minrclone out).2 ≠ VersionCheckResult.versionError) := by
  refine ⟨rfl, ?_, ?_, ?_⟩
  · intro ver minver hv hm
    simp [rclone_init, version_check, hv, hm]
  · intro hv
    simp [rclone_init, version_check, hv]
  · intro hm
    rcases ho : (findVersionCapture out).bind parseVersionTuple with _ | v
    · simp [rclone_init, version_check, ho]
    · simp [rclone_init, version_check, ho, hm]

/-- Concrete instantiation of C7: minimum version 1.2 against reported
version 1.1.0 raises the version error; an unparsable output only warns. -/
theorem claim_C7_witness :
    ((findVersionCapture ("rclone v1.1.0".toList)).bind parseVersionTuple = some [1, 1, 0]
      ∧ parseVersionTuple ("1.2".toList) = some [1, 2])
    ∧ (rclone_init ("1.2".toList) ("rclone v1.1.0".toList)).2 = VersionCheckResult.versionError
    ∧ (rclone_init ("1.2".toList) ("strange".toList)).2 = VersionCheckResult.parseWarning :=
  ⟨⟨by decide, by decide⟩,
    ((claim_C7_version_gate ("1.2".toList) ("rclone v1.1.0".toList)).2.1 [1, 1, 0] [1, 2]
      (by decide) (by decide)).trans (by decide),
    (claim_C7_version_gate ("1.2".toList) ("strange".toList)).2.2.1 (by decide)⟩

/-- Memoization invariant of the feature probe: starting from a cache in
which every stored value is the probe's answer and whose probe counts are
at most one (zero where the cache is empty), processing any query sequence
returns the probe's answers and keeps every count at most one. -/
theorem featuresMemoRun_spec (probe : Side → FeatureMap) :
    ∀ (queries : List Side) (cache : Side → Option FeatureMap) (count : Side → Nat),
      (∀ s fm, cache s = some fm → fm = probe s) →
      (∀ s, count s ≤ 1) →
      (∀ s, cache s = none → count s = 0) →
      (featuresMemoRun probe queries cache count).1 = queries.map probe
      ∧ ∀ s, (featuresMemoRun probe queries cache count).2.2 s ≤ 1 := by
  intro queries
  induction queries with
  | nil =>
    intro cache count _ h2 _
    exact ⟨rfl, h2⟩
  | cons q rest ih =>
    intro cache count h1 h2 h3
    cases hc : cache q with
    | some fm =>
      have hr := ih cache count h1 h2 h3
      simp only [featuresMemoRun, hc]
      exact ⟨by rw [List.map_cons, hr.1, h1 q fm hc], hr.2⟩
    | none =>
      have h1' : ∀ s fm, (fun s => if s = q then some (probe q) else cache s) s = some fm →
          fm = probe s := by
        intro s fm hs
        by_cases hsq : s = q
        · subst hsq
          simp only [if_pos rfl] at hs
          exact (Option.some_injective _ hs).symm
        · exact h1 s fm (by simpa [hsq] using hs)
      have h2' : ∀ s, (fun s => if s = q then count s + 1 else count s) s ≤ 1 := by
        intro s
        by_cases hsq : s = q
        · have h0 : count s = 0 := by rw [hsq]; exact h3 q hc
          simp [if_pos hsq, h0]
        · simpa [hsq] using h2 s
      have h3' : ∀ s, (fun s => if s = q then some (probe q) else cache s) s = none →
          (fun s => if s = q then count s + 1 else count s) s = 0 := by
        intro s hs
        by_cases hsq : s = q
        · subst hsq
          simp at hs
        · simpa [hsq] using h3 s (by simpa [hsq] using hs)
      have hr := ih _ _ h1' h2' h3'
      simp only [featuresMemoRun, hc]
      exact ⟨by rw [List.map_cons, hr.1], hr.2⟩

/-- C9: the feature probe is evaluated at most once per side over any
query sequence, every query returns that side's probed record, and the
capability predicates default to false for Copy and Move and to true for
CanHaveEmptyDirectories when the key is absent. -/
theorem claim_C9_features (probe : Side → FeatureMap) (queries : List Side) :
    ((featuresRun probe queries).1 = queries.map probe
      ∧ ∀ s, (featuresRun probe queries).2.2 s ≤ 1)
    ∧ (∀ fm : FeatureMap, fm.lookup "Copy" = none → copy_support fm = false)
    ∧ (∀ fm : FeatureMap, fm.lookup "Move" = none → move_support fm = false)
    ∧ (∀ fm : FeatureMap, fm.lookup "CanHaveEmptyDirectories" = none →
        empty_dir_support fm = true) := by
  refine ⟨featuresMemoRun_spec probe queries _ _ (fun s fm h => by cases h)
      (fun s => Nat.zero_le 1) (fun s _ => rfl), ?_, ?_, ?_⟩
  · intro fm hl
    simp [copy_support, hl]
  · intro fm hl
    simp [move_support, hl]
  · intro fm hl
    simp [empty_dir_support, hl]

/-- Concrete instantiation of C9: two A-queries and one B-query probe each
side once, and a record lacking the keys yields the defaults. -/
theorem claim_C9_witness :
    (([("Other", true)] : FeatureMap).lookup "Copy" = none
      ∧ ([("Other", true)] : FeatureMap).lookup "Move" = none
      ∧ ([("Other", true)] : FeatureMap).lookup "CanHaveEmptyDirectories" = none)
    ∧ copy_support [("Other", true)] = false
    ∧ move_support [("Other", true)] = false
    ∧ empty_dir_support [("Other", true)] = true
    ∧ (featuresRun (fun _ => [("Copy", true)]) [Side.A, Side.A, Side.B]).2.2 Side.A ≤ 1 :=
  ⟨⟨by decide, by decide, by decide⟩,
    (claim_C9_features (fun _ => []) []).2.1 [("Other", true)] (by decide),
    (claim_C9_features (fun _ => []) []).2.2.1 [("Other", true)] (by decide),
    (claim_C9_features (fun _ => []) []).2.2.2 [("Other", true)] (by decide),
    (claim_C9_features (fun _ => [("Copy", true)]) [Side.A, Side.A, Side.B]).1.2 Side.A⟩

/-- Two distinct component lists always produce a mismatch in the zip of
their padded pointwise pairs, first at the index of their longest common
prefix. -/
theorem firstMismatch_zipLongest :
    ∀ {a : List String} {b : List String}, a ≠ b →
      firstMismatch (zipLongest a b) = some (commonPrefixLen a b) := by
  intro a
  induction a with
  | nil =>
    intro b hab
    cases b with
    | nil => exact absurd rfl hab
    | cons y ys => simp [zipLongest, firstMismatch, commonPrefixLen]
  | cons x xs ih =>
    intro b hab
    cases b with
    | nil => simp [zipLongest, firstMismatch, commonPrefixLen]
    | cons y ys =>
      by_cases hxy : x = y
      · subst hxy
        have hne : xs ≠ ys := fun he => hab (by rw [he])
        simp [zipLongest, firstMismatch, commonPrefixLen, ih hne]
      · simp [zipLongest, firstMismatch, commonPrefixLen, hxy]

/-- For a rename pair with distinct source and destination, the `ixdiv`
left by the source loop is exactly the length of the longest common suffix
of components. -/
theorem ixdivCalc_eq_commonSuffixLen {s d : Parts} (h : s ≠ d) :
    ixdivCalc s d = commonSuffixLen s d := by
  have hr : s.reverse ≠ d.reverse := fun he => h (List.reverse_inj.mp he)
  simp only [ixdivCalc, commonSuffixLen, firstMismatch_zipLongest hr]

/-- The source's per-pair classification agrees with the spec's on every
pair with distinct source and destination. -/
theorem moveStep_eq_specMoveStep (st : MoveState) (p : Parts × Parts) (h : p.1 ≠ p.2) :
    moveStep st p = specMoveStep st p := by
  simp only [moveStep, specMoveStep, ixdivCalc_eq_commonSuffixLen h]

/-- C1: for every list of rename pairs (distinct source and destination
paths), the move stage dispatches each pair with no common component
suffix as a single moveto, groups every other pair under the prefix pair
obtained by stripping the longest common component suffix, dispatches each
group of two or more as one grouped move with the suffixes as files-from,
and collapses each singleton group back to a moveto — i.e. the source
dispatch equals the spec's dispatch. -/
theorem claim_C1_move_grouping (moves : List (Parts × Parts))
    (h : ∀ p ∈ moves, p.1 ≠ p.2) :
    delete_backup_move_moves moves = specDispatchMoves moves := by
  simp only [delete_backup_move_moves, specDispatchMoves]
  rw [List.foldl_ext moveStep specMoveStep ([], [])
    (fun st p hp => moveStep_eq_specMoveStep st p (h p hp))]

/-- Concrete instantiation of C1 at scenario S5: the two-pair input yields
exactly one grouped `move deep deeper` call with files-from
`{sub/dir/f1, sub/dir/f2}` and no moveto calls. -/
theorem claim_C1_witness :
    (∀ p ∈ movesS5, p.1 ≠ p.2)
    ∧ delete_backup_move_moves movesS5 =
        [MoveOp.move ["deep"] ["deeper"] [["sub", "dir", "f1"], ["sub", "dir", "f2"]]] :=
  ⟨by decide, (claim_C1_move_grouping movesS5 (by decide)).trans (by decide)⟩

/-- On a listing with unique paths, searching for a triple match that also
satisfies the hash-and-mtime side condition is the same as looking the
triple up first and then testing the side condition on the unique match. -/
theorem find_triple_hashes (f : FileEntry) :
    ∀ (prev : List FileEntry), (prev.map FileEntry.path).Nodup →
      prev.find? (fun pe =>
          (pe.path = f.path ∧ pe.size = f.size ∧ pe.mtime = f.mtime)
            ∧ (pe.hashes.isSome ∧ mtimeTruthy pe.mtime))
        = match dictTableGet prev f.path f.size f.mtime with
          | some pe =>
            if pe.hashes.isSome ∧ mtimeTruthy pe.mtime then some pe else none
          | none => none := by
  intro prev
  induction prev with
  | nil => intro _; rfl
  | cons e rest ih =>
    intro hnd
    have hnd' : (rest.map FileEntry.path).Nodup := (List.nodup_cons.mp hnd).2
    have hepath : e.path ∉ rest.map FileEntry.path := (List.nodup_cons.mp hnd).1
    by_cases htr : e.path = f.path ∧ e.size = f.size ∧ e.mtime = f.mtime
    · have hdg : dictTableGet (e :: rest) f.path f.size f.mtime = some e := by
        unfold dictTableGet
        exact List.find?_cons_of_pos rest (by simp only [decide_eq_true_eq]; exact htr)
      rw [hdg]
      by_cases hex : e.hashes.isSome = true ∧ mtimeTruthy e.mtime = true
      · rw [List.find?_cons_of_pos rest
          (by simp only [decide_eq_true_eq]; exact ⟨htr, hex⟩)]
        simp [hex]
      · rw [List.find?_cons_of_neg rest
          (by simp only [decide_eq_true_eq]; exact fun h => hex h.2)]
        have hrest : rest.find? (fun pe =>
            (pe.path = f.path ∧ pe.size = f.size ∧ pe.mtime = f.mtime)
              ∧ (pe.hashes.isSome ∧ mtimeTruthy pe.mtime)) = none := by
          refine List.find?_eq_none.mpr (fun x hx hpx => ?_)
          have hxpath : x.path = f.path := (of_decide_eq_true hpx).1.1
          exact hepath (by
            rw [htr.1, ← hxpath]
            exact List.mem_map_of_mem FileEntry.path hx)
        rw [hrest]
        simp [hex]
    · have hdg : dictTableGet (e :: rest) f.path f.size f.mtime
          = dictTableGet rest f.path f.size f.mtime := by
        unfold dictTableGet
        exact List.find?_cons_of_neg rest (by simp only [decide_eq_true_eq]; exact htr)
      rw [hdg, List.find?_cons_of_neg rest
        (by simp only [decide_eq_true_eq]; exact fun h => htr h.1)]
      exact ih hnd'

/-- The reuse loop of the source equals the amended reuse pass on every
prev listing with unique paths. -/
theorem reuseHashesPass_eq_amended (curr prev : List FileEntry)
    (hnd : (prev.map FileEntry.path).Nodup) :
    reuseHashesPass curr prev = amendedReusePass curr prev := by
  unfold reuseHashesPass amendedReusePass
  refine List.foldl_ext _ _ ([], []) (fun acc f _ => ?_)
  rw [find_triple_hashes f prev hnd]
  rcases hdg : dictTableGet prev f.path f.size f.mtime with _ | pe
  · simp [hdg]
  · simp only [hdg]
    by_cases hex : pe.hashes.isSome = true ∧ mtimeTruthy pe.mtime = true
    · simp [hex, Bool.and_eq_true]
    · simp [hex, Bool.and_eq_true]

/-- The two formulations of the hash merge loop agree. -/
theorem mergeFetchedHashes_eq_amended (files updated : List FileEntry) :
    mergeFetchedHashes files updated = amendedMergeHashes files updated := by
  unfold mergeFetchedHashes amendedMergeHashes
  refine List.foldl_ext _ _ files (fun fs u _ => ?_)
  rcases hu : u.hashes with _ | h
  · simp [hu]
  · simp [hu]

/-- C5 counterexample: a prev entry with an equal `(Path, Size, mtime)`
triple whose `Hashes` field is present but empty.  The claim requires a
nonempty `Hashes` field, so it predicts the path stays un-hashed and is
re-fetched; the source tests only presence of the key (plus truthiness of
the prev entry's mtime) and copies the empty map, leaving nothing to
fetch.  The prev listing has unique paths, so the input is a valid
listing. -/
theorem claim_C5_counterexample :
    (([FileEntry.mk "p" 1 (some 5) (some [])].map FileEntry.path).Nodup)
    ∧ reuseHashesPass [FileEntry.mk "p" 1 (some 5) none]
          [FileEntry.mk "p" 1 (some 5) (some [])]
        = ([FileEntry.mk "p" 1 (some 5) (some [])], [])
    ∧ claimReusePass [FileEntry.mk "p" 1 (some 5) none]
          [FileEntry.mk "p" 1 (some 5) (some [])]
        = ([FileEntry.mk "p" 1 (some 5) none], ["p"])
    ∧ reuseHashesPass [FileEntry.mk "p" 1 (some 5) none]
          [FileEntry.mk "p" 1 (some 5) (some [])]
        ≠ claimReusePass [FileEntry.mk "p" 1 (some 5) none]
          [FileEntry.mk "p" 1 (some 5) (some [])] := by
  refine ⟨by decide, by decide, by decide, by decide⟩

/-- C5 (amended): when hashes are to be reused on a side whose prev
listing has unique paths, the acquisition pass copies the `Hashes` map
onto each entry of curr from a prev entry with equal `(Path, Size, mtime)`
whose `Hashes` field is present (possibly empty) and whose mtime is
present and nonzero; the paths still lacking hashes are then fetched with
a second listing call restricted to exactly that list (no call when it is
empty), and the returned `Hashes` maps are merged into curr by `Path`. -/
theorem claim_C5_hash_reuse (curr prev : List FileEntry)
    (fetch : List String → List FileEntry)
    (hnd : (prev.map FileEntry.path).Nodup) :
    file_list_hash_update curr prev fetch = amendedHashUpdate curr prev fetch := by
  unfold file_list_hash_update amendedHashUpdate
  rw [reuseHashesPass_eq_amended curr prev hnd]
  simp only [mergeFetchedHashes_eq_amended]

/-- Concrete instantiation of C5 (amended) at the counterexample input
with an empty fetch oracle. -/
theorem claim_C5_witness :
    (([FileEntry.mk "p" 1 (some 5) (some [("md5", "aa")])].map FileEntry.path).Nodup)
    ∧ file_list_hash_update [FileEntry.mk "p" 1 (some 5) none]
          [FileEntry.mk "p" 1 (some 5) (some [("md5", "aa")])] (fun _ => [])
        = amendedHashUpdate [FileEntry.mk "p" 1 (some 5) none]
          [FileEntry.mk "p" 1 (some 5) (some [("md5", "aa")])] (fun _ => []) :=
  ⟨by decide,
    claim_C5_hash_reuse [FileEntry.mk "p" 1 (some 5) none]
      [FileEntry.mk "p" 1 (some 5) (some [("md5", "aa")])] (fun _ => []) (by decide)⟩

/-- A list is lexicographically smaller than itself extended by any
nonempty tail. -/
theorem lex_lt_append_cons (l : List Char) (c : Char) (t : List Char) :
    l < l ++ c :: t := by
  show List.Lex (· < ·) l (l ++ c :: t)
  induction l with
  | nil => exact List.Lex.nil
  | cons x xs ih => exact List.Lex.cons ih

/-- A proper path ancestor is lexicographically smaller (its slashed form
is a strict prefix). -/
theorem properAncestor_lt {a d : DirPath} (h : properAncestor a d) : a < d := by
  obtain ⟨t, ht⟩ := h
  have hform : a ++ '/' :: t = d := by simpa using ht
  rw [← hform]
  exact lex_lt_append_cons a '/' t

/-- Proper path ancestry is transitive. -/
theorem properAncestor_trans {a b d : DirPath} (h1 : properAncestor a b)
    (h2 : properAncestor b d) : properAncestor a d :=
  h1.trans ((List.prefix_append b ['/']).trans h2)

/-- No directory is a proper ancestor of itself. -/
theorem properAncestor_irrefl (a : DirPath) : ¬ properAncestor a a := by
  intro h
  have := h.length_le
  simp only [List.length_append, List.length_cons, List.length_nil] at this
  omega

/-- The source's startswith test decides proper ancestry. -/
theorem dirStartsWith_iff {d r : DirPath} :
    dirStartsWith d r = true ↔ properAncestor r d := by
  unfold dirStartsWith properAncestor
  exact List.isPrefixOf_iff_prefix

/-- Invariant of the root-selection loop of `Rclone.rmdirs`: walking a
sorted remainder whose elements dominate everything processed, starting
from an accumulator that holds exactly the ancestor-free processed
directories and covers the discarded ones, yields exactly the
ancestor-free directories of the whole list, covers every discarded
directory by a kept root, and keeps no duplicates. -/
theorem rmdirRootsGo_spec :
    ∀ (rest acc processed : List DirPath),
      (∀ r ∈ acc, r ∈ processed) →
      (∀ d ∈ processed, (d ∈ acc ↔ ∀ a ∈ processed, ¬ properAncestor a d)) →
      (∀ d ∈ processed, d ∉ acc → ∃ r ∈ acc, properAncestor r d) →
      acc.Nodup →
      (∀ d ∈ processed, ∀ x ∈ rest, d < x) →
      rest.Pairwise (· < ·) →
      (∀ d, d ∈ rmdirRootsGo acc rest ↔
         (d ∈ processed ++ rest ∧ ∀ a ∈ processed ++ rest, ¬ properAncestor a d))
      ∧ (∀ d ∈ processed ++ rest, d ∉ rmdirRootsGo acc rest →
           ∃ r ∈ rmdirRootsGo acc rest, properAncestor r d)
      ∧ (rmdirRootsGo acc rest).Nodup := by
  intro rest
  induction rest with
  | nil =>
    intro acc processed hsub hiff hcov hnd _ _
    simp only [rmdirRootsGo, List.append_nil]
    exact ⟨fun d => ⟨fun hd => ⟨hsub d hd, (hiff d (hsub d hd)).mp hd⟩,
      fun hd => (hiff d hd.1).mpr hd.2⟩, hcov, hnd⟩
  | cons h t ih =>
    intro acc processed hsub hiff hcov hnd hord hpw
    have hordh : ∀ d ∈ processed, d < h :=
      fun d hd => hord d hd h (List.mem_cons_self h t)
    have hnotmem : h ∉ processed := fun hh => absurd (hordh h hh) (lt_irrefl h)
    have hordt : ∀ d ∈ processed, ∀ x ∈ t, d < x :=
      fun d hd x hx => hord d hd x (List.mem_cons_of_mem h hx)
    have hht : ∀ x ∈ t, h < x := (List.pairwise_cons.mp hpw).1
    have hpwt : t.Pairwise (· < ·) := (List.pairwise_cons.mp hpw).2
    have happend : processed ++ h :: t = (processed ++ [h]) ++ t := by simp
    by_cases hchk : acc.any (fun r => dirStartsWith h r) = true
    · obtain ⟨r0, hr0acc, hr0⟩ := List.any_eq_true.mp hchk
      have hr0anc : properAncestor r0 h := dirStartsWith_iff.mp hr0
      have step : rmdirRootsGo acc (h :: t) = rmdirRootsGo acc t := by
        simp only [rmdirRootsGo, if_pos hchk]
      rw [step, happend]
      refine ih acc (processed ++ [h]) ?_ ?_ ?_ hnd ?_ hpwt
      · exact fun r hr => List.mem_append_left _ (hsub r hr)
      · intro d hd
        rcases List.mem_append.mp hd with hd' | hd'
        · constructor
          · intro hdacc a ha
            rcases List.mem_append.mp ha with ha' | ha'
            · exact (hiff d hd').mp hdacc a ha'
            · have hah : a = h := by simpa using ha'
              subst hah
              intro hanc
              exact absurd (properAncestor_lt hanc) (lt_asymm (hordh d hd'))
          · intro hall
            exact (hiff d hd').mpr (fun a ha => hall a (List.mem_append_left _ ha))
        · have hdh : d = h := by simpa using hd'
          subst hdh
          constructor
          · intro hdacc
            exact absurd (hsub d hdacc) hnotmem
          · intro hall
            exact absurd hr0anc (hall r0 (List.mem_append_left _ (hsub r0 hr0acc)))
      · intro d hd hdacc
        rcases List.mem_append.mp hd with hd' | hd'
        · exact hcov d hd' hdacc
        · have hdh : d = h := by simpa using hd'
          subst hdh
          exact ⟨r0, hr0acc, hr0anc⟩
      · intro d hd x hx
        rcases List.mem_append.mp hd with hd' | hd'
        · exact hordt d hd' x hx
        · have hdh : d = h := by simpa using hd'
          subst hdh
          exact hht x hx
    · have hnone : ∀ r ∈ acc, ¬ properAncestor r h := by
        intro r hr hanc
        exact hchk (List.any_eq_true.mpr ⟨r, hr, dirStartsWith_iff.mpr hanc⟩)
      have hnacc : h ∉ acc := fun hh => hnotmem (hsub h hh)
      have step : rmdirRootsGo acc (h :: t) = rmdirRootsGo (acc ++ [h]) t := by
        simp only [rmdirRootsGo, if_neg hchk]
      rw [step, happend]
      refine ih (acc ++ [h]) (processed ++ [h]) ?_ ?_ ?_ ?_ ?_ hpwt
      · intro r hr
        rcases List.mem_append.mp hr with hr' | hr'
        · exact List.mem_append_left _ (hsub r hr')
        · exact List.mem_append_right _ hr'
      · intro d hd
        rcases List.mem_append.mp hd with hd' | hd'
        · have hdh : d ≠ h := fun he => hnotmem (he ▸ hd')
          constructor
          · intro hdacc a ha
            have hdacc' : d ∈ acc := by
              rcases List.mem_append.mp hdacc with h1 | h1
              · exact h1
              · exact absurd (by simpa using h1) hdh
            rcases List.mem_append.mp ha with ha' | ha'
            · exact (hiff d hd').mp hdacc' a ha'
            · have hah : a = h := by simpa using ha'
              subst hah
              intro hanc
              exact absurd (properAncestor_lt hanc) (lt_asymm (hordh d hd'))
          · intro hall
            have hdin : d ∈ acc :=
              (hiff d hd').mpr (fun a ha => hall a (List.mem_append_left _ ha))
            exact List.mem_append_left _ hdin
        · have hdh : d = h := by simpa using hd'
          subst hdh
          constructor
          · intro _ a ha hanc
            rcases List.mem_append.mp ha with ha' | ha'
            · by_cases haacc : a ∈ acc
              · exact hnone a haacc hanc
              · obtain ⟨r, hracc, hranc⟩ := hcov a ha' haacc
                exact hnone r hracc (properAncestor_trans hranc hanc)
            · have hah : a = d := by simpa using ha'
              subst hah
              exact properAncestor_irrefl a hanc
          · intro _
            exact List.mem_append_right _ (List.mem_singleton_self d)
      · intro d hd hdacc
        rcases List.mem_append.mp hd with hd' | hd'
        · have hdacc0 : d ∉ acc := fun hh => hdacc (List.mem_append_left _ hh)
          obtain ⟨r, hracc, hranc⟩ := hcov d hd' hdacc0
          exact ⟨r, List.mem_append_left _ hracc, hranc⟩
        · have hdh : d = h := by simpa using hd'
          subst hdh
          exact absurd (List.mem_append_right _ (List.mem_singleton_self d)) hdacc
      · exact List.Nodup.append hnd (List.nodup_singleton h)
          (fun x hx hx1 => hnacc ((List.mem_singleton.mp hx1) ▸ hx))
      · intro d hd x hx
        rcases List.mem_append.mp hd with hd' | hd'
        · exact hordt d hd' x hx
        · have hdh : d = h := by simpa using hd'
          subst hdh
          exact hht x hx

/-- C8: for every duplicate-free directory list given to the
empty-directory cleanup, the rmdirs agent invocations issued are exactly
the directories of the list that have no proper ancestor directory also in
the list, one invocation per such root, and every discarded directory is a
path-descendant of some issued root. -/
theorem claim_C8_rmdirs (dirlist : List DirPath) (hnd : dirlist.Nodup) :
    (∀ d, d ∈ rmdirs_roots dirlist ↔
       (d ∈ dirlist ∧ ∀ a ∈ dirlist, ¬ properAncestor a d))
    ∧ (∀ d ∈ dirlist, d ∉ rmdirs_roots dirlist →
         ∃ r ∈ rmdirs_roots dirlist, properAncestor r d)
    ∧ (rmdirs_roots dirlist).Nodup := by
  have hperm : List.Perm (dirlist.insertionSort (· ≤ ·)) dirlist :=
    List.perm_insertionSort _ _
  have hmem : ∀ x : DirPath, x ∈ dirlist.insertionSort (· ≤ ·) ↔ x ∈ dirlist :=
    fun x => hperm.mem_iff
  have hsorted : (dirlist.insertionSort (· ≤ ·)).Sorted (· ≤ ·) :=
    List.sorted_insertionSort _ _
  have hndS : (dirlist.insertionSort (· ≤ ·)).Nodup := hperm.nodup_iff.mpr hnd
  have hpw : (dirlist.insertionSort (· ≤ ·)).Pairwise (· < ·) :=
    (List.Pairwise.and hsorted hndS).imp (fun hab => lt_of_le_of_ne hab.1 hab.2)
  have hgo := rmdirRootsGo_spec (dirlist.insertionSort (· ≤ ·)) [] []
    (fun r hr => absurd hr (List.not_mem_nil r))
    (fun d hd => absurd hd (List.not_mem_nil d))
    (fun d hd => absurd hd (List.not_mem_nil d))
    List.nodup_nil
    (fun d hd => absurd hd (List.not_mem_nil d))
    hpw
  simp only [List.nil_append] at hgo
  unfold rmdirs_roots
  refine ⟨fun d => (hgo.1 d).trans ?_, ?_, hgo.2.2⟩
  · constructor
    · rintro ⟨hd, hall⟩
      exact ⟨(hmem d).mp hd, fun a ha => hall a ((hmem a).mpr ha)⟩
    · rintro ⟨hd, hall⟩
      exact ⟨(hmem d).mpr hd, fun a ha => hall a ((hmem a).mp ha)⟩
  · intro d hd hdnr
    exact hgo.2.1 d ((hmem d).mpr hd) hdnr

/-- Concrete instantiation of C8: of `{a/b, a, c}` only `a` and `c` are
issued, and the discarded `a/b` descends from the issued root `a`. -/
theorem claim_C8_witness :
    ([['a', '/', 'b'], ['a'], ['c']] : List DirPath).Nodup
    ∧ (['a', '/', 'b'] ∈ rmdirs_roots [['a', '/', 'b'], ['a'], ['c']] ↔
        (['a', '/', 'b'] ∈ ([['a', '/', 'b'], ['a'], ['c']] : List DirPath)
          ∧ ∀ a ∈ ([['a', '/', 'b'], ['a'], ['c']] : List DirPath),
              ¬ properAncestor a ['a', '/', 'b']))
    ∧ rmdirs_roots [['a', '/', 'b'], ['a'], ['c']] = [['a'], ['c']] :=
  ⟨by decide,
    (claim_C8_rmdirs [['a', '/', 'b'], ['a'], ['c']] (by decide)).1 ['a', '/', 'b'],
    by decide⟩

end Syncrclone
